import Mathlib

/-!
Verification of the commit-replication core of `action-verified-commit`
(`src/index.js`) against its natural-language specification.

The JavaScript code is shallowly embedded: JS strings become `String`
(manipulated through `List Char` where the JS string methods are modelled
character by character), JS `undefined`-able values become `Option`,
rejected promises become `Except JsError`, and every remote API request the
program issues is recorded in an explicit trace (`List ApiCall`).  The
`owner`/`repo` arguments of the API calls are the same constants for every
call of a run (`CONTEXT.REPO`), so they are not repeated in the trace;
their derivation from the origin URL is modelled separately
(`identifyOwnerRepo`).
-/

namespace AVC

/-- A value thrown/rejected in JS: `isError` records whether it is an
`instanceof Error`, `message` its `.message` field (the only field the
program inspects). -/
structure JsError where
  isError : Bool
  message : String
deriving Repr, DecidableEq

/-- One parsed line of `git ls-tree -r --full-tree` output, as built by
`getTree` in `src/index.js` (fields other than `mode` can be JS
`undefined`, hence `Option`). -/
structure TreeEntry where
  mode : String
  type : Option String
  sha : Option String
  path : Option String
deriving Repr, DecidableEq

/-- One remote (GitHub) API request issued by the program. -/
inductive ApiCall where
  | createRef (ref : String) (sha : String)
  | createBlob (content : String)
  | createTree (entries : List TreeEntry)
  | createCommit (message : String) (parents : List String) (treeSha : String)
  | updateRef (ref : String) (sha : String) (force : Bool)
deriving Repr, DecidableEq

/-! ### JS string primitives -/

/-- The whitespace characters matched by the JS regex `\s` that can occur
in `git` output (space, tab, CR, LF, vertical tab, form feed). -/
def jsWs (c : Char) : Bool :=
  c = ' ' || c = '\t' || c = '\n' || c = '\r' || c = '\x0b' || c = '\x0c'

/-- JS `String.prototype.split` with a single-character separator: keeps
empty pieces, and splitting the empty string yields `[[]]`. -/
def splitChar (sep : Char) : List Char → List (List Char)
  | [] => [[]]
  | c :: cs =>
    match splitChar sep cs with
    | [] => [[]]
    | piece :: pieces =>
      if c = sep then [] :: piece :: pieces else (c :: piece) :: pieces

/-- JS `String.prototype.split` with the regex `/\s/` (any single
whitespace character as separator, empty pieces kept). -/
def splitWs : List Char → List (List Char)
  | [] => [[]]
  | c :: cs =>
    match splitWs cs with
    | [] => [[]]
    | piece :: pieces =>
      if jsWs c then [] :: piece :: pieces else (c :: piece) :: pieces

/-- JS `String.prototype.trimEnd`. -/
def jsTrimEnd (l : List Char) : List Char :=
  (l.reverse.dropWhile jsWs).reverse

/-- JS `str.replace(pat, '')` for a plain (non-regex) pattern: removes the
first occurrence of `pat`, if any. -/
def removeFirst (pat : List Char) : List Char → List Char
  | [] => []
  | c :: cs =>
    if pat.isPrefixOf (c :: cs) then (c :: cs).drop pat.length
    else c :: removeFirst pat cs

/-- JS `str.replace(/\.git$/, '')`: strips one trailing `".git"`. -/
def stripDotGit (l : List Char) : List Char :=
  if ".git".toList.isSuffixOf l then l.take (l.length - 4) else l

/-- `localCommit.commit.replace('HEAD ', '')` (line 224 of the source). -/
def stripHeadToken (s : String) : String :=
  String.mk (removeFirst "HEAD ".toList s.toList)

/-! ### identifyRepository (owner/repo extraction, lines 11-29) -/

/-- The `[owner, repo]` destructuring of
`originRemote.trimEnd().replace(/\.git$/, '').split('/').slice(3, 5)`. -/
def identifyOwnerRepo (originRemote : String) : Option String × Option String :=
  let sliced := ((splitChar '/' (stripDotGit (jsTrimEnd originRemote.toList))).drop 3).take 2
  ((sliced.get? 0).map String.mk, (sliced.get? 1).map String.mk)

/-- The spec's words for the same extraction: after trimming trailing
whitespace and stripping a trailing `".git"`, take the LAST two
slash-separated segments as owner and repo. -/
def specOwnerRepo (originRemote : String) : Option String × Option String :=
  let segs := splitChar '/' (stripDotGit (jsTrimEnd originRemote.toList))
  let lastTwo := segs.drop (segs.length - 2)
  ((lastTwo.get? 0).map String.mk, (lastTwo.get? 1).map String.mk)

/-! ### getTree (lines 69-89) -/

/-- Parsing of one output line of `ls-tree`:
`const [mode, type, sha] = treeObject.split(/\s/)` and
`const file = treeObject.split('\t')[1]`. -/
def parseTreeLine (line : List Char) : TreeEntry :=
  let parts := splitWs line
  { mode := String.mk (parts.headD [])
    type := (parts.get? 1).map String.mk
    sha := (parts.get? 2).map String.mk
    path := ((splitChar '\t' line).get? 1).map String.mk }

/-- The parsing done by `getTree` on the raw `ls-tree` output:
`output.trimEnd()` then one `TreeEntry` per `'\n'`-separated line. -/
def parseLsTree (raw : String) : List TreeEntry :=
  (splitChar '\n' (jsTrimEnd raw.toList)).map parseTreeLine

/-- `getTree commitSha`: the `git.raw('ls-tree', ...)` promise either
rejects (its error propagates, `getTree` has no catch) or resolves to the
raw listing, which is parsed. -/
def getTree (lsTreeResult : Except JsError String) : Except JsError (List TreeEntry) :=
  match lsTreeResult with
  | .error e => .error e
  | .ok raw => .ok (parseLsTree raw)

/-! ### The blob differ (selection test of the loop at lines 104-122) -/

/-- The entries of `tree` for which the loop in `createGithubBlobs` issues
an upload: those with `previousTree.findIndex((entry) => entry.sha ===
treeEntry.sha) === -1`. -/
def uploadTasks (previousTree tree : List TreeEntry) : List TreeEntry :=
  tree.filter fun treeEntry =>
    !(previousTree.findIdx? fun entry => entry.sha == treeEntry.sha).isSome

/-! ### Environment: the local git repository, filesystem and remote API -/

/-- Everything outside the program that one run observes: local git command
results, file contents and the outcomes of the remote API requests.  Each
`Except` models a promise that either resolves or rejects. -/
structure Env where
  /-- `git.revparse(['--abbrev-ref', 'HEAD'])`: currently checked-out branch. -/
  gitBranch : String
  /-- `git.revparse(['HEAD'])`: tip commit of the checked-out branch. -/
  gitHeadSha : String
  /-- `git.remote(['get-url', 'origin'])`. -/
  originRemote : String
  /-- `status.isClean()` for the working tree. -/
  gitIsClean : Bool
  /-- `git.add('./*').commit('local commit')`: the `.commit` field of the
  result, before the `'HEAD '` cleanup. -/
  localCommitRaw : Except JsError String
  /-- `git.raw('ls-tree', '-r', '--full-tree', ref)` per ref string. -/
  lsTree : String → Except JsError String
  /-- `getBlobBase64Content`: join with the base path, read the file and
  base64-encode, per tree-entry `path`. -/
  readFileB64 : Option String → Except JsError String
  /-- `octokit.rest.git.createRef` outcome per `(ref, sha)`. -/
  createRefApi : String → String → Except JsError Unit
  /-- `octokit.rest.git.createBlob` outcome per base64 content. -/
  createBlobApi : String → Except JsError String
  /-- `octokit.rest.git.createTree` outcome (the new tree sha) per entry list. -/
  createTreeApi : List TreeEntry → Except JsError String
  /-- `octokit.rest.git.createCommit` outcome (the new commit sha) per
  `(message, parents, treeSha)`. -/
  createCommitApi : String → List String → String → Except JsError String
  /-- `octokit.rest.git.updateRef` outcome per `(ref, sha)` (force is
  always true). -/
  updateRefApi : String → String → Except JsError Unit

/-- The action's inputs (`core.getInput`, lines 184-189). -/
structure Inputs where
  token : String
  path : String
  branch : String
  commitMessage : String

/-- Outcome of one `run`: the remote API requests issued (in order), the
overall result, and the final value of `CONTEXT.TASK.lastCommitSha`. -/
structure RunResult where
  calls : List ApiCall
  result : Except JsError Unit
  lastCommitSha : String
deriving Repr

/-! ### createRemoteBranch (lines 41-62) -/

/-- `createRemoteBranch branch`: issues `createRef` for
`refs/heads/<branch>` at `CONTEXT.REPO.sha`; the rejection is rethrown only
when it is an `instanceof Error` whose message differs from
`'Reference already exists'`. -/
def createRemoteBranch (env : Env) (branch : String) (sha : String) :
    List ApiCall × Except JsError Unit :=
  ([ApiCall.createRef ("refs/heads/" ++ branch) sha],
    match env.createRefApi ("refs/heads/" ++ branch) sha with
    | .ok _ => .ok ()
    | .error error =>
      if error.isError && error.message != "Reference already exists" then .error error
      else .ok ())

/-! ### createGithubBlobs (lines 99-127) -/

/-- The `for` loop of `createGithubBlobs`: for each target entry not found
in `previousTree` (by `sha`), await the file read, then issue a
`createBlob` request and collect its (not yet awaited) outcome.  A failed
read rejects the whole function at once; requests already issued stay in
the trace. -/
def uploadLoop (env : Env) (previousTree : List TreeEntry) :
    List TreeEntry → List ApiCall × Except JsError (List (Except JsError String))
  | [] => ([], .ok [])
  | treeEntry :: rest =>
    if (previousTree.findIdx? fun entry => entry.sha == treeEntry.sha).isSome then
      uploadLoop env previousTree rest
    else
      match env.readFileB64 treeEntry.path with
      | .error e => ([], .error e)
      | .ok content =>
        let res := env.createBlobApi content
        match uploadLoop env previousTree rest with
        | (calls, .error e) => (ApiCall.createBlob content :: calls, .error e)
        | (calls, .ok outs) => (ApiCall.createBlob content :: calls, .ok (res :: outs))

/-- `await Promise.all(promises)`: resolves when every promise resolved,
rejects with the first rejection. -/
def promiseAllJoin : List (Except JsError String) → Except JsError Unit
  | [] => .ok ()
  | .error e :: _ => .error e
  | .ok _ :: rest => promiseAllJoin rest

/-- `createGithubBlobs commitSha`: reads the parent (`<sha>~1`) and target
trees, runs the upload loop, and awaits all issued blob requests. -/
def createGithubBlobs (env : Env) (commitSha : String) :
    List ApiCall × Except JsError Unit :=
  match getTree (env.lsTree (commitSha ++ "~1")), getTree (env.lsTree commitSha) with
  | .error e, _ => ([], .error e)
  | .ok _, .error e => ([], .error e)
  | .ok previousTree, .ok tree =>
    match uploadLoop env previousTree tree with
    | (calls, .error e) => (calls, .error e)
    | (calls, .ok outs) => (calls, promiseAllJoin outs)

/-! ### createGithubTreeAndCommit (lines 129-153) and updateGithubRef -/

/-- `createGithubTreeAndCommit tree commitMessage`: creates the remote tree
(rewrapping a failure's message), then the remote commit with
`parents: [CONTEXT.TASK.lastCommitSha]`; on success the returned sha is the
new `lastCommitSha`. -/
def createGithubTreeAndCommit (env : Env) (tree : List TreeEntry)
    (commitMessage : String) (lastCommitSha : String) :
    List ApiCall × Except JsError String :=
  match env.createTreeApi tree with
  | .error e =>
    ([ApiCall.createTree tree],
      .error { e with message := "Cannot create a new GitHub Tree: " ++ e.message })
  | .ok treeSha =>
    ([ApiCall.createTree tree, ApiCall.createCommit commitMessage [lastCommitSha] treeSha],
      match env.createCommitApi commitMessage [lastCommitSha] treeSha with
      | .error e => .error e
      | .ok commitSha => .ok commitSha)

/-- `updateGithubRef`: force-updates `heads/<branch>` to
`CONTEXT.TASK.lastCommitSha`. -/
def updateGithubRef (env : Env) (branch : String) (lastCommitSha : String) :
    List ApiCall × Except JsError Unit :=
  ([ApiCall.updateRef ("heads/" ++ branch) lastCommitSha true],
    env.updateRefApi ("heads/" ++ branch) lastCommitSha)

/-! ### createGithubVerifiedCommit (lines 65-178) -/

/-- `createGithubVerifiedCommit`: reads the desired tree, uploads missing
blobs, creates tree+commit, updates the ref.  Returns the issued calls, the
final `lastCommitSha` (overwritten when the commit was created) and the
overall result. -/
def createGithubVerifiedCommit (env : Env) (localCommit : String)
    (branch : String) (commitMessage : String) (lastCommitSha : String) :
    List ApiCall × String × Except JsError Unit :=
  match getTree (env.lsTree localCommit) with
  | .error e => ([], lastCommitSha, .error e)
  | .ok desiredTree =>
    match createGithubBlobs env localCommit with
    | (blobCalls, .error e) => (blobCalls, lastCommitSha, .error e)
    | (blobCalls, .ok _) =>
      match createGithubTreeAndCommit env desiredTree commitMessage lastCommitSha with
      | (tcCalls, .error e) => (blobCalls ++ tcCalls, lastCommitSha, .error e)
      | (tcCalls, .ok newSha) =>
        match updateGithubRef env branch newSha with
        | (refCalls, .error e) => (blobCalls ++ tcCalls ++ refCalls, newSha, .error e)
        | (refCalls, .ok _) => (blobCalls ++ tcCalls ++ refCalls, newSha, .ok ())

/-! ### run (lines 180-230) -/

/-- `CONTEXT.TASK.branch = inputs.branch !== '' ? inputs.branch :
CONTEXT.REPO.branch` (line 204). -/
def resolvedBranch (env : Env) (inputs : Inputs) : String :=
  if inputs.branch ≠ "" then inputs.branch else env.gitBranch

/-- `const useRemoteBranch = CONTEXT.TASK.branch !== CONTEXT.REPO.branch;
if (useRemoteBranch) await createRemoteBranch(...)` (lines 215-219): the
branch-creation step, a no-op when the resolved branch is the checked-out
one. -/
def branchStep (env : Env) (inputs : Inputs) : List ApiCall × Except JsError Unit :=
  if resolvedBranch env inputs ≠ env.gitBranch
  then createRemoteBranch env (resolvedBranch env inputs) env.gitHeadSha
  else ([], .ok ())

/-- The part of `run` past the clean-tree early return: optional
`createRemoteBranch`, helper local commit, then
`createGithubVerifiedCommit`. -/
def runMain (env : Env) (inputs : Inputs) : RunResult :=
  let seed := env.gitHeadSha
  match branchStep env inputs with
  | (branchCalls, .error e) => ⟨branchCalls, .error e, seed⟩
  | (branchCalls, .ok _) =>
    match env.localCommitRaw with
    | .error e => ⟨branchCalls, .error e, seed⟩
    | .ok rawCommit =>
      match createGithubVerifiedCommit env (stripHeadToken rawCommit)
          (resolvedBranch env inputs) inputs.commitMessage seed with
      | (calls, finalSha, res) => ⟨branchCalls ++ calls, res, finalSha⟩

/-- One whole `run`: `CONTEXT.TASK.lastCommitSha` is seeded with
`CONTEXT.REPO.sha` (the resolved HEAD), and a clean working tree returns
before the octokit client is even built, so with an empty trace. -/
def run (env : Env) (inputs : Inputs) : RunResult :=
  if env.gitIsClean then ⟨[], .ok (), env.gitHeadSha⟩
  else runMain env inputs

/-! ### Call discriminators -/

def isCommitCall : ApiCall → Bool
  | .createCommit _ _ _ => true
  | _ => false

def isUpdateRefCall : ApiCall → Bool
  | .updateRef _ _ _ => true
  | _ => false

/-! ### Demo environments used by the witnesses -/

/-- A target listing of two files, of which only `y.txt` is new. -/
def demoLsTree : String → Except JsError String := fun ref =>
  if ref = "c1" then .ok "100644 blob a1\tx.txt\n100644 blob b2\ty.txt"
  else if ref = "c1~1" then .ok "100644 blob a1\tx.txt"
  else .error ⟨true, "fatal: not a tree object"⟩

/-- A happy-path environment: dirty tree on `main`, one new blob. -/
def demoEnv : Env where
  gitBranch := "main"
  gitHeadSha := "tip0"
  originRemote := "https://github.com/alvarezfr/action-verified-commit.git"
  gitIsClean := false
  localCommitRaw := .ok "HEAD c1"
  lsTree := demoLsTree
  readFileB64 := fun p =>
    if p = some "y.txt" then .ok "WQ=="
    else if p = some "x.txt" then .ok "WA=="
    else .error ⟨true, "ENOENT"⟩
  createRefApi := fun _ _ => .ok ()
  createBlobApi := fun _ => .ok "b2"
  createTreeApi := fun _ => .ok "tree1"
  createCommitApi := fun _ _ _ => .ok "commit1"
  updateRefApi := fun _ _ => .ok ()

def demoInputs : Inputs :=
  { token := "t", path := ".", branch := "", commitMessage := "chore: sync" }

/-- Inputs asking for a branch other than the checked-out `main`. -/
def demoInputsFeature : Inputs := { demoInputs with branch := "feature" }

/-- The demo environment with a clean working tree. -/
def demoEnvClean : Env := { demoEnv with gitIsClean := true }

/-- The demo environment where every blob creation is rejected. -/
def demoEnvBlobFail : Env :=
  { demoEnv with createBlobApi := fun _ => .error ⟨true, "quota exceeded"⟩ }

/-- The demo environment where parent and target listings coincide, so the
upload-task set is empty. -/
def demoEnvNoDiff : Env :=
  { demoEnv with lsTree := fun ref =>
      if ref = "c1" || ref = "c1~1" then .ok "100644 blob a1\tx.txt"
      else .error ⟨true, "fatal: not a tree object"⟩ }

/-- The demo environment whose `createRef` reports an existing reference. -/
def demoEnvRefAlreadyExists : Env :=
  { demoEnv with createRefApi := fun _ _ => .error ⟨true, "Reference already exists"⟩ }

/-- The demo environment whose `createRef` rejects with a non-`Error`
value. -/
def demoEnvRefNonError : Env :=
  { demoEnv with createRefApi := fun _ _ => .error ⟨false, "boom"⟩ }

/-! ### Helper lemmas -/

lemma splitChar_ne_nil (sep : Char) (l : List Char) : splitChar sep l ≠ [] := by
  induction l with
  | nil => simp [splitChar]
  | cons c cs ih =>
    simp only [splitChar]
    cases h : splitChar sep cs with
    | nil => simp
    | cons p ps => dsimp only; split <;> simp

lemma parseLsTree_length_pos (raw : String) : 1 ≤ (parseLsTree raw).length := by
  have h := splitChar_ne_nil '\n' (jsTrimEnd raw.toList)
  simp only [parseLsTree, List.length_map]
  exact Nat.one_le_iff_ne_zero.mpr (by simpa [List.length_eq_zero] using h)

/-! ### Structural lemmas about the pipeline trace -/

lemma promiseAllJoin_cons_error (x : Except JsError String)
    (outs : List (Except JsError String)) (e : JsError)
    (h : promiseAllJoin outs = .error e) :
    ∃ e', promiseAllJoin (x :: outs) = .error e' := by
  cases x with
  | error e0 => exact ⟨e0, rfl⟩
  | ok s => exact ⟨e, h⟩

/-- Every request issued by the upload loop is a blob creation. -/
lemma uploadLoop_calls_blob (env : Env) (P : List TreeEntry) :
    ∀ (T : List TreeEntry) (c : ApiCall), c ∈ (uploadLoop env P T).1 →
      ∃ cnt, c = ApiCall.createBlob cnt := by
  intro T
  induction T with
  | nil => intro c hc; simp [uploadLoop] at hc
  | cons t rest ih =>
    intro c hc
    simp only [uploadLoop] at hc
    split at hc
    · exact ih c hc
    · split at hc
      · simp at hc
      · split at hc <;>
        · rename_i heq
          rcases List.mem_cons.mp hc with h1 | h1
          · exact ⟨_, h1⟩
          · exact ih c (by rw [heq]; exact h1)

/-- If some issued blob creation rejects, the joint await of the loop's
promises rejects. -/
lemma uploadLoop_blob_error (env : Env) (P : List TreeEntry) (cnt : String) (e : JsError)
    (hapi : env.createBlobApi cnt = .error e) :
    ∀ (T : List TreeEntry) (calls : List ApiCall) (outs : List (Except JsError String)),
      uploadLoop env P T = (calls, .ok outs) →
      ApiCall.createBlob cnt ∈ calls →
      ∃ e', promiseAllJoin outs = .error e' := by
  intro T
  induction T with
  | nil =>
    intro calls outs h hm
    simp only [uploadLoop, Prod.mk.injEq] at h
    obtain ⟨h1, _⟩ := h
    subst h1
    simp at hm
  | cons t rest ih =>
    intro calls outs h hm
    simp only [uploadLoop] at h
    split at h
    · exact ih calls outs h hm
    · split at h
      · simp at h
      · split at h <;> rename_i heq <;>
          simp only [Prod.mk.injEq] at h
        · exact absurd h.2 (by simp)
        · obtain ⟨h1, h2⟩ := h
          simp only [Except.ok.injEq] at h2
          subst h1
          subst h2
          rcases List.mem_cons.mp hm with h1 | h1
          · injection h1 with hcnt
            subst hcnt
            exact ⟨e, by simp [promiseAllJoin, hapi]⟩
          · obtain ⟨e', he'⟩ := ih _ _ heq h1
            exact promiseAllJoin_cons_error _ _ _ he'

/-- Every request issued by `createGithubBlobs` is a blob creation. -/
lemma createGithubBlobs_calls_blob (env : Env) (sha : String) (calls : List ApiCall)
    (res : Except JsError Unit) (h : createGithubBlobs env sha = (calls, res)) :
    ∀ c ∈ calls, ∃ cnt, c = ApiCall.createBlob cnt := by
  intro c hc
  unfold createGithubBlobs at h
  split at h
  · simp only [Prod.mk.injEq] at h
    obtain ⟨h1, _⟩ := h
    subst h1
    simp at hc
  · simp only [Prod.mk.injEq] at h
    obtain ⟨h1, _⟩ := h
    subst h1
    simp at hc
  · split at h <;>
    · rename_i heq
      simp only [Prod.mk.injEq] at h
      obtain ⟨h1, _⟩ := h
      subst h1
      exact uploadLoop_calls_blob env _ _ c (by rw [heq]; exact hc)

/-- A rejected blob upload makes `createGithubBlobs` reject. -/
lemma createGithubBlobs_blob_error (env : Env) (sha cnt : String) (e : JsError)
    (hapi : env.createBlobApi cnt = .error e) (calls : List ApiCall)
    (res : Except JsError Unit) (h : createGithubBlobs env sha = (calls, res))
    (hm : ApiCall.createBlob cnt ∈ calls) :
    ∃ e', res = .error e' := by
  unfold createGithubBlobs at h
  split at h
  · simp only [Prod.mk.injEq] at h
    obtain ⟨h1, _⟩ := h
    subst h1
    simp at hm
  · simp only [Prod.mk.injEq] at h
    obtain ⟨h1, _⟩ := h
    subst h1
    simp at hm
  · split at h <;> rename_i heq <;> simp only [Prod.mk.injEq] at h <;>
      obtain ⟨h1, h2⟩ := h
    · exact ⟨_, h2.symm⟩
    · subst h1
      obtain ⟨e', he'⟩ := uploadLoop_blob_error env _ cnt e hapi _ _ _ heq hm
      exact ⟨e', by rw [← h2, he']⟩

/-- When `createGithubBlobs` resolves, every blob it uploaded was accepted. -/
lemma createGithubBlobs_ok_blobs (env : Env) (sha : String) (calls : List ApiCall)
    (h : createGithubBlobs env sha = (calls, .ok ())) :
    ∀ cnt, ApiCall.createBlob cnt ∈ calls → ∃ s, env.createBlobApi cnt = .ok s := by
  intro cnt hm
  cases hres : env.createBlobApi cnt with
  | ok s => exact ⟨s, rfl⟩
  | error e =>
    obtain ⟨e', he'⟩ := createGithubBlobs_blob_error env sha cnt e hres calls _ h hm
    exact absurd he' (by simp)

/-- The identity match used on a commit-creation outcome. -/
lemma exceptIdMatch (x : Except JsError String) :
    (match x with | .error e => Except.error e | .ok s => Except.ok s) = x := by
  cases x <;> rfl

/-- Description of one `createGithubTreeAndCommit` execution: either tree
creation failed (one call, rewrapped error), or the tree was created and
the result is the commit-creation outcome. -/
lemma ctc_cases (env : Env) (tree : List TreeEntry) (msg seed : String)
    (tcCalls : List ApiCall) (cres : Except JsError String)
    (h : createGithubTreeAndCommit env tree msg seed = (tcCalls, cres)) :
    (∃ e, env.createTreeApi tree = .error e ∧ tcCalls = [ApiCall.createTree tree] ∧
      cres = .error { e with message := "Cannot create a new GitHub Tree: " ++ e.message })
    ∨ (∃ treeSha, env.createTreeApi tree = .ok treeSha ∧
        tcCalls = [ApiCall.createTree tree, ApiCall.createCommit msg [seed] treeSha] ∧
        cres = env.createCommitApi msg [seed] treeSha) := by
  unfold createGithubTreeAndCommit at h
  split at h <;> rename_i heq <;> simp only [Prod.mk.injEq] at h <;>
    obtain ⟨h1, h2⟩ := h
  · exact Or.inl ⟨_, heq, h1.symm, h2.symm⟩
  · exact Or.inr ⟨_, heq, h1.symm, by rw [← h2, exceptIdMatch]⟩

/-- Exhaustive description of one `createGithubVerifiedCommit` execution:
either the desired-tree read fails, or the upload stage fails, or tree
creation fails, or commit creation fails, or everything up to the ref
update succeeded (the ref update's outcome becoming the result). -/
lemma cvc_cases (env : Env) (lc br msg seed : String) (calls : List ApiCall)
    (finalSha : String) (res : Except JsError Unit)
    (h : createGithubVerifiedCommit env lc br msg seed = (calls, finalSha, res)) :
    (∃ e, env.lsTree lc = .error e ∧ calls = [] ∧ finalSha = seed ∧ res = .error e)
    ∨ (∃ raw blobCalls, env.lsTree lc = .ok raw ∧
        createGithubBlobs env lc = (blobCalls, res) ∧ (∃ e, res = .error e) ∧
        calls = blobCalls ∧ finalSha = seed)
    ∨ (∃ raw blobCalls e, env.lsTree lc = .ok raw ∧
        createGithubBlobs env lc = (blobCalls, .ok ()) ∧
        env.createTreeApi (parseLsTree raw) = .error e ∧
        calls = blobCalls ++ [ApiCall.createTree (parseLsTree raw)] ∧
        finalSha = seed ∧
        res = .error { e with message := "Cannot create a new GitHub Tree: " ++ e.message })
    ∨ (∃ raw blobCalls treeSha e, env.lsTree lc = .ok raw ∧
        createGithubBlobs env lc = (blobCalls, .ok ()) ∧
        env.createTreeApi (parseLsTree raw) = .ok treeSha ∧
        env.createCommitApi msg [seed] treeSha = .error e ∧
        calls = blobCalls ++
          [ApiCall.createTree (parseLsTree raw), ApiCall.createCommit msg [seed] treeSha] ∧
        finalSha = seed ∧ res = .error e)
    ∨ (∃ raw blobCalls treeSha newSha, env.lsTree lc = .ok raw ∧
        createGithubBlobs env lc = (blobCalls, .ok ()) ∧
        env.createTreeApi (parseLsTree raw) = .ok treeSha ∧
        env.createCommitApi msg [seed] treeSha = .ok newSha ∧
        calls = blobCalls ++
          [ApiCall.createTree (parseLsTree raw), ApiCall.createCommit msg [seed] treeSha,
            ApiCall.updateRef ("heads/" ++ br) newSha true] ∧
        finalSha = newSha ∧ res = env.updateRefApi ("heads/" ++ br) newSha) := by
  unfold createGithubVerifiedCommit at h
  split at h
  · -- desired-tree read failed
    rename_i e heq
    simp only [Prod.mk.injEq] at h
    obtain ⟨h1, h2, h3⟩ := h
    cases hls : env.lsTree lc with
    | error e' =>
      rw [hls] at heq
      simp only [getTree, Except.error.injEq] at heq
      subst heq
      exact Or.inl ⟨e', rfl, h1.symm, h2.symm, h3.symm⟩
    | ok raw =>
      rw [hls] at heq
      simp [getTree] at heq
  · rename_i desiredTree heq
    have hraw : ∃ raw, env.lsTree lc = .ok raw ∧ desiredTree = parseLsTree raw := by
      cases hls : env.lsTree lc with
      | error e' => rw [hls] at heq; simp [getTree] at heq
      | ok raw =>
        rw [hls] at heq
        simp only [getTree, Except.ok.injEq] at heq
        exact ⟨raw, rfl, heq.symm⟩
    obtain ⟨raw, hls, rfl⟩ := hraw
    split at h
    · -- the upload stage failed
      rename_i blobCalls e heq2
      simp only [Prod.mk.injEq] at h
      obtain ⟨h1, h2, h3⟩ := h
      refine Or.inr (Or.inl ⟨raw, blobCalls, hls, ?_, ⟨e, h3.symm⟩, h1.symm, h2.symm⟩)
      rw [heq2, ← h3]
    · rename_i blobCalls u heq2
      cases u
      split at h
      · -- tree-or-commit stage failed
        rename_i tcCalls e heq3
        simp only [Prod.mk.injEq] at h
        obtain ⟨h1, h2, h3⟩ := h
        rcases ctc_cases env _ msg seed tcCalls _ heq3 with
          ⟨e', htree, htc, hcres⟩ | ⟨treeSha, htree, htc, hcres⟩
        · injection hcres with hcres'
          exact Or.inr (Or.inr (Or.inl ⟨raw, blobCalls, e', hls, heq2, htree,
            by rw [← h1, htc], h2.symm, by rw [← h3, hcres']⟩))
        · exact Or.inr (Or.inr (Or.inr (Or.inl ⟨raw, blobCalls, treeSha, e, hls, heq2,
            htree, hcres.symm, by rw [← h1, htc], h2.symm, h3.symm⟩)))
      · -- tree and commit created; the ref update decides the result
        rename_i tcCalls newSha heq3
        rcases ctc_cases env _ msg seed tcCalls _ heq3 with
          ⟨e', _, _, hcres⟩ | ⟨treeSha, htree, htc, hcres⟩
        · exact absurd hcres (by simp)
        · split at h <;> rename_i refCalls e4 heq4 <;>
            (unfold updateGithubRef at heq4
             simp only [Prod.mk.injEq] at heq4 h
             obtain ⟨hrc, hupd⟩ := heq4) <;>
            obtain ⟨h1, h2, h3⟩ := h
          · exact Or.inr (Or.inr (Or.inr (Or.inr ⟨raw, blobCalls, treeSha, newSha,
              hls, heq2, htree, hcres.symm,
              by rw [← h1, htc, ← hrc]; simp, h2.symm, by rw [← h3, ← hupd]⟩)))
          · exact Or.inr (Or.inr (Or.inr (Or.inr ⟨raw, blobCalls, treeSha, newSha,
              hls, heq2, htree, hcres.symm,
              by rw [← h1, htc, ← hrc]; simp, h2.symm, by rw [← h3, ← hupd]⟩)))

/-- The requests of `createGithubVerifiedCommit` never include a ref
creation. -/
lemma cvc_no_createRef (env : Env) (lc br msg seed : String) (calls : List ApiCall)
    (finalSha : String) (res : Except JsError Unit)
    (h : createGithubVerifiedCommit env lc br msg seed = (calls, finalSha, res)) :
    ∀ r s, ApiCall.createRef r s ∉ calls := by
  intro r s hm
  rcases cvc_cases env lc br msg seed calls finalSha res h with
    ⟨e, _, hcalls, _, _⟩ | ⟨raw, bc, _, hb, _, hcalls, _⟩ |
    ⟨raw, bc, e, _, hb, _, hcalls, _, _⟩ |
    ⟨raw, bc, tS, e, _, hb, _, _, hcalls, _, _⟩ |
    ⟨raw, bc, tS, nS, _, hb, _, _, hcalls, _, _⟩ <;>
    rw [hcalls] at hm
  · simp at hm
  · obtain ⟨cnt, hc⟩ := createGithubBlobs_calls_blob env lc bc res hb _ hm
    simp at hc
  all_goals
    rcases List.mem_append.mp hm with hm' | hm'
    · obtain ⟨cnt, hc⟩ := createGithubBlobs_calls_blob env lc bc _ hb _ hm'
      simp at hc
    · simp at hm'

/-- The branch-creation step either issues exactly one `createRef` (branch
differs) or issues nothing (branch equal). -/
lemma branchStep_cases (env : Env) (inputs : Inputs) :
    (resolvedBranch env inputs ≠ env.gitBranch ∧
      (branchStep env inputs).1 =
        [ApiCall.createRef ("refs/heads/" ++ resolvedBranch env inputs) env.gitHeadSha])
    ∨ (resolvedBranch env inputs = env.gitBranch ∧ (branchStep env inputs).1 = []) := by
  by_cases hb : resolvedBranch env inputs = env.gitBranch
  · exact Or.inr ⟨hb, by simp [branchStep, hb]⟩
  · exact Or.inl ⟨hb, by simp [branchStep, hb, createRemoteBranch]⟩

/-- Description of one non-clean `run`: branch creation failed, the local
helper commit failed, or `createGithubVerifiedCommit` ran and determines
trace and result. -/
lemma run_cases (env : Env) (inputs : Inputs) (hclean : env.gitIsClean = false) :
    (∃ e, (branchStep env inputs).2 = .error e ∧
      run env inputs = ⟨(branchStep env inputs).1, .error e, env.gitHeadSha⟩)
    ∨ (∃ e, (branchStep env inputs).2 = .ok () ∧ env.localCommitRaw = .error e ∧
      run env inputs = ⟨(branchStep env inputs).1, .error e, env.gitHeadSha⟩)
    ∨ (∃ rawCommit cvcCalls finalSha cres,
        (branchStep env inputs).2 = .ok () ∧ env.localCommitRaw = .ok rawCommit ∧
        createGithubVerifiedCommit env (stripHeadToken rawCommit) (resolvedBranch env inputs)
          inputs.commitMessage env.gitHeadSha = (cvcCalls, finalSha, cres) ∧
        run env inputs = ⟨(branchStep env inputs).1 ++ cvcCalls, cres, finalSha⟩) := by
  have hrm : run env inputs = runMain env inputs := by simp [run, hclean]
  rw [hrm]
  unfold runMain
  cases hbs : branchStep env inputs with
  | mk bc bres =>
    cases bres with
    | error e => exact Or.inl ⟨e, rfl, rfl⟩
    | ok u =>
      cases u
      cases hlcr : env.localCommitRaw with
      | error e => exact Or.inr (Or.inl ⟨e, rfl, rfl, rfl⟩)
      | ok rawCommit =>
        rcases hcvc : createGithubVerifiedCommit env (stripHeadToken rawCommit)
            (resolvedBranch env inputs) inputs.commitMessage env.gitHeadSha with
          ⟨cvcCalls, finalSha, cres⟩
        exact Or.inr (Or.inr ⟨rawCommit, cvcCalls, finalSha, cres, rfl, rfl, hcvc,
          by dsimp only; rw [hcvc]⟩)

/-! ### C1: the blob differ -/

/-- C1: the upload tasks are exactly the target entries whose `sha` occurs
in no parent entry, they are emitted in target-snapshot order (a sublist of
the target snapshot), and the differ is deterministic. -/
theorem c1_differ_exact (previousTree tree : List TreeEntry) :
    (∀ e, e ∈ uploadTasks previousTree tree ↔
      e ∈ tree ∧ ∀ p ∈ previousTree, ¬p.sha = e.sha)
    ∧ (uploadTasks previousTree tree).Sublist tree
    ∧ uploadTasks previousTree tree = uploadTasks previousTree tree := by
  refine ⟨fun e => ?_, List.filter_sublist _, rfl⟩
  simp [uploadTasks, List.mem_filter, List.findIdx?_isSome, List.any_eq_true]

/-! ### C8: owner/repo extraction -/

/-- C8 counterexample: on `https://example.com/x/owner/repo` the code takes
the slash-separated segments at indices 3 and 4 (`x`, `owner`), not the
last two path segments (`owner`, `repo`) the spec describes. -/
theorem c8_counterexample :
    identifyOwnerRepo "https://example.com/x/owner/repo" = (some "x", some "owner")
    ∧ specOwnerRepo "https://example.com/x/owner/repo" = (some "owner", some "repo")
    ∧ ¬identifyOwnerRepo "https://example.com/x/owner/repo" =
        specOwnerRepo "https://example.com/x/owner/repo" := by
  refine ⟨by decide, by decide, by decide⟩

/-- C8 amended: owner and repo are the slash-separated segments at indices
3 and 4 of the trimmed, `.git`-stripped URL; when that split has exactly
five segments (the shape of a standard `https://host/owner/repo` URL) they
coincide with the spec's last two path segments. -/
theorem c8_amended (url : String)
    (h : (splitChar '/' (stripDotGit (jsTrimEnd url.toList))).length = 5) :
    identifyOwnerRepo url = specOwnerRepo url := by
  have key : ∀ (l : List (List Char)), l.length = 5 →
      (l.drop 3).take 2 = l.drop (l.length - 2) := by
    intro l hl
    match l, hl with
    | [a, b, c, d, e], _ => simp
  unfold identifyOwnerRepo specOwnerRepo
  rw [key _ h]

/-- C8 amended witness: a standard GitHub https origin URL. -/
theorem c8_amended_witness :
    (splitChar '/' (stripDotGit (jsTrimEnd "https://github.com/alvarezfr/action-verified-commit.git".toList))).length = 5
    ∧ identifyOwnerRepo "https://github.com/alvarezfr/action-verified-commit.git" =
        specOwnerRepo "https://github.com/alvarezfr/action-verified-commit.git" :=
  ⟨by decide, c8_amended "https://github.com/alvarezfr/action-verified-commit.git" (by decide)⟩

/-! ### C9: resolution failures are signalled distinctly -/

/-- C9: a rejected `ls-tree` (unresolvable commit reference, e.g. the
parent of the repository's first commit) propagates out of `getTree` and
out of `createGithubBlobs` unchanged instead of being turned into a
snapshot, and a successful `getTree` never returns an empty snapshot, so a
resolution failure and an empty snapshot are distinguishable. -/
theorem c9_resolution_failure_distinct :
    (∀ e : JsError, getTree (.error e) = .error e)
    ∧ (∀ raw, getTree (.ok raw) = .ok (parseLsTree raw))
    ∧ (∀ raw, 1 ≤ (parseLsTree raw).length)
    ∧ (∀ (env : Env) (sha : String) (e : JsError),
        env.lsTree (sha ++ "~1") = .error e →
          createGithubBlobs env sha = ([], .error e)) := by
  refine ⟨fun e => rfl, fun raw => rfl, parseLsTree_length_pos, ?_⟩
  intro env sha e h
  simp [createGithubBlobs, h, getTree]

/-- C9 witness: in the demo environment the reference `zzz~1` does not
resolve, and `createGithubBlobs` rejects with exactly that error. -/
theorem c9_witness :
    demoEnv.lsTree ("zzz" ++ "~1") = .error ⟨true, "fatal: not a tree object"⟩
    ∧ createGithubBlobs demoEnv "zzz" = ([], .error ⟨true, "fatal: not a tree object"⟩) :=
  ⟨rfl, c9_resolution_failure_distinct.2.2.2 demoEnv "zzz" _ rfl⟩

/-! ### C10: the empty listing parses to one degenerate entry -/

/-- C10: `getTree`'s parse never returns an empty snapshot; the empty
listing yields exactly one entry with empty mode and absent type, sha and
path. -/
theorem c10_empty_listing_degenerate_entry :
    parseLsTree "" = [{ mode := "", type := none, sha := none, path := none }]
    ∧ ∀ raw, 1 ≤ (parseLsTree raw).length :=
  ⟨by decide, parseLsTree_length_pos⟩

/-! ### C2: the tree creation always receives the full target snapshot -/

/-- C2: whenever a run issues a tree-creation call, the submitted entry
list is exactly the parsed full target snapshot (the `ls-tree` listing of
the helper local commit), never a diffed subset — in particular also when
no blob was uploaded. -/
theorem c2_full_target_tree_submitted (env : Env) (inputs : Inputs) (entries : List TreeEntry)
    (h : ApiCall.createTree entries ∈ (run env inputs).calls) :
    ∃ rawCommit raw, env.localCommitRaw = .ok rawCommit
      ∧ env.lsTree (stripHeadToken rawCommit) = .ok raw
      ∧ entries = parseLsTree raw := by
  cases hclean : env.gitIsClean with
  | true => simp [run, hclean] at h
  | false =>
    rcases run_cases env inputs hclean with
      ⟨e, hbs, hr⟩ | ⟨e, hbs, hlcr, hr⟩ |
      ⟨rawCommit, cvcCalls, finalSha, cres, hbs, hlcr, hcvc, hr⟩
    · rw [hr] at h
      rcases branchStep_cases env inputs with ⟨_, hb1⟩ | ⟨_, hb1⟩ <;>
        simp [hb1] at h
    · rw [hr] at h
      rcases branchStep_cases env inputs with ⟨_, hb1⟩ | ⟨_, hb1⟩ <;>
        simp [hb1] at h
    · rw [hr] at h
      have hnb : ApiCall.createTree entries ∈ cvcCalls := by
        rcases List.mem_append.mp h with h1 | h1
        · exfalso
          rcases branchStep_cases env inputs with ⟨_, hb1⟩ | ⟨_, hb1⟩ <;>
            rw [hb1] at h1 <;> simp at h1
        · exact h1
      rcases cvc_cases env _ _ _ _ _ _ _ hcvc with
        ⟨e, _, hcalls, _, _⟩ | ⟨raw, bc, _, hb, _, hcalls, _⟩ |
        ⟨raw, bc, e, hls, hb, _, hcalls, _, _⟩ |
        ⟨raw, bc, tS, e, hls, hb, _, _, hcalls, _, _⟩ |
        ⟨raw, bc, tS, nS, hls, hb, _, _, hcalls, _, _⟩ <;> rw [hcalls] at hnb
      · simp at hnb
      · obtain ⟨cnt, hc⟩ := createGithubBlobs_calls_blob env _ bc _ hb _ hnb
        simp at hc
      all_goals
        rcases List.mem_append.mp hnb with h1 | h1
      all_goals
        first
        | (obtain ⟨cnt, hc⟩ := createGithubBlobs_calls_blob env _ bc _ hb _ h1
           simp at hc)
        | (refine ⟨rawCommit, raw, hlcr, hls, ?_⟩
           simp at h1
           exact h1)

/-! ### C3: no partial commit on upload failure -/

/-- C3: if any issued blob upload is rejected, the run's result is an
error and no tree-creation and no commit-creation call appears in the
trace; conversely a tree-creation call appears only when every issued
upload was accepted. -/
theorem c3_upload_failure_no_partial_commit (env : Env) (inputs : Inputs) :
    (∀ cnt e, ApiCall.createBlob cnt ∈ (run env inputs).calls →
        env.createBlobApi cnt = .error e →
        (∃ e', (run env inputs).result = .error e')
        ∧ (∀ ent, ApiCall.createTree ent ∉ (run env inputs).calls)
        ∧ (∀ m ps t, ApiCall.createCommit m ps t ∉ (run env inputs).calls))
    ∧ (∀ ent, ApiCall.createTree ent ∈ (run env inputs).calls →
        ∀ cnt, ApiCall.createBlob cnt ∈ (run env inputs).calls →
          ∃ s, env.createBlobApi cnt = .ok s) := by
  cases hclean : env.gitIsClean with
  | true =>
    constructor
    · intro cnt e hm
      simp [run, hclean] at hm
    · intro ent hm
      simp [run, hclean] at hm
  | false =>
    rcases run_cases env inputs hclean with
      ⟨e, hbs, hr⟩ | ⟨e, hbs, hlcr, hr⟩ |
      ⟨rawCommit, cvcCalls, finalSha, cres, hbs, hlcr, hcvc, hr⟩
    · rw [hr]
      constructor
      · intro cnt e' hm
        exfalso
        rcases branchStep_cases env inputs with ⟨_, hb1⟩ | ⟨_, hb1⟩ <;>
          simp [hb1] at hm
      · intro ent hm
        exfalso
        rcases branchStep_cases env inputs with ⟨_, hb1⟩ | ⟨_, hb1⟩ <;>
          simp [hb1] at hm
    · rw [hr]
      constructor
      · intro cnt e' hm
        exfalso
        rcases branchStep_cases env inputs with ⟨_, hb1⟩ | ⟨_, hb1⟩ <;>
          simp [hb1] at hm
      · intro ent hm
        exfalso
        rcases branchStep_cases env inputs with ⟨_, hb1⟩ | ⟨_, hb1⟩ <;>
          simp [hb1] at hm
    · rw [hr]
      dsimp only
      have hbsMem : ∀ c, c ∈ (branchStep env inputs).1 → ∃ r s, c = ApiCall.createRef r s := by
        intro c hc
        rcases branchStep_cases env inputs with ⟨_, hb1⟩ | ⟨_, hb1⟩ <;> rw [hb1] at hc
        · simp at hc
          exact ⟨_, _, hc⟩
        · simp at hc
      constructor
      · intro cnt e hm hapi
        have hmc : ApiCall.createBlob cnt ∈ cvcCalls := by
          rcases List.mem_append.mp hm with h1 | h1
          · obtain ⟨r, s, hc⟩ := hbsMem _ h1
            simp at hc
          · exact h1
        rcases cvc_cases env _ _ _ _ _ _ _ hcvc with
          ⟨e', _, hcalls, _, hres⟩ | ⟨raw, bc, hls, hb, hrese, hcalls, _⟩ |
          ⟨raw, bc, e', hls, hb, htree, hcalls, _, hres⟩ |
          ⟨raw, bc, tS, e', hls, hb, htree, hcm, hcalls, _, hres⟩ |
          ⟨raw, bc, tS, nS, hls, hb, htree, hcm, hcalls, _, hres⟩
        · rw [hcalls] at hmc
          simp at hmc
        · refine ⟨hrese, ?_, ?_⟩
          · intro ent hmt
            rcases List.mem_append.mp hmt with h1 | h1
            · obtain ⟨r, s, hc⟩ := hbsMem _ h1
              simp at hc
            · rw [hcalls] at h1
              obtain ⟨cnt', hc⟩ := createGithubBlobs_calls_blob env _ bc _ hb _ h1
              simp at hc
          · intro m ps t hmt
            rcases List.mem_append.mp hmt with h1 | h1
            · obtain ⟨r, s, hc⟩ := hbsMem _ h1
              simp at hc
            · rw [hcalls] at h1
              obtain ⟨cnt', hc⟩ := createGithubBlobs_calls_blob env _ bc _ hb _ h1
              simp at hc
        all_goals
          exfalso
          rw [hcalls] at hmc
          rcases List.mem_append.mp hmc with h1 | h1
          · obtain ⟨s, hs⟩ := createGithubBlobs_ok_blobs env _ bc hb cnt h1
            rw [hapi] at hs
            simp at hs
          · simp at h1
      · intro ent hmt cnt hmb
        have hmtc : ApiCall.createTree ent ∈ cvcCalls := by
          rcases List.mem_append.mp hmt with h1 | h1
          · obtain ⟨r, s, hc⟩ := hbsMem _ h1
            simp at hc
          · exact h1
        have hmbc : ApiCall.createBlob cnt ∈ cvcCalls := by
          rcases List.mem_append.mp hmb with h1 | h1
          · obtain ⟨r, s, hc⟩ := hbsMem _ h1
            simp at hc
          · exact h1
        rcases cvc_cases env _ _ _ _ _ _ _ hcvc with
          ⟨e', _, hcalls, _, hres⟩ | ⟨raw, bc, hls, hb, hrese, hcalls, _⟩ |
          ⟨raw, bc, e', hls, hb, htree, hcalls, _, hres⟩ |
          ⟨raw, bc, tS, e', hls, hb, htree, hcm, hcalls, _, hres⟩ |
          ⟨raw, bc, tS, nS, hls, hb, htree, hcm, hcalls, _, hres⟩
        · rw [hcalls] at hmtc
          simp at hmtc
        · rw [hcalls] at hmtc
          obtain ⟨cnt', hc⟩ := createGithubBlobs_calls_blob env _ bc _ hb _ hmtc
          simp at hc
        all_goals
          rw [hcalls] at hmbc
          rcases List.mem_append.mp hmbc with h1 | h1
          · exact createGithubBlobs_ok_blobs env _ bc hb cnt h1
          · simp at h1

/-! ### C4: parent linkage and single overwrite of the commit state -/

/-- C4: in a run that replicates a commit (dirty tree, successful result),
exactly one commit-creation call is issued; its parents list is exactly the
seeded `lastCommitSha` (the resolved HEAD tip), the state is overwritten
with the created commit's sha, and the single ref update targets exactly
that post-overwrite value. -/
theorem c4_commit_parent_linkage (env : Env) (inputs : Inputs)
    (hclean : env.gitIsClean = false)
    (hok : (run env inputs).result = .ok ()) :
    ∃ treeSha,
      ((run env inputs).calls.filter isCommitCall) =
        [ApiCall.createCommit inputs.commitMessage [env.gitHeadSha] treeSha]
      ∧ env.createCommitApi inputs.commitMessage [env.gitHeadSha] treeSha =
          .ok ((run env inputs).lastCommitSha)
      ∧ ((run env inputs).calls.filter isUpdateRefCall) =
          [ApiCall.updateRef ("heads/" ++ resolvedBranch env inputs)
            ((run env inputs).lastCommitSha) true] := by
  rcases run_cases env inputs hclean with
    ⟨e, hbs, hr⟩ | ⟨e, hbs, hlcr, hr⟩ |
    ⟨rawCommit, cvcCalls, finalSha, cres, hbs, hlcr, hcvc, hr⟩
  · rw [hr] at hok
    simp at hok
  · rw [hr] at hok
    simp at hok
  · rw [hr] at hok ⊢
    dsimp only at hok ⊢
    have hbf : ∀ (p : ApiCall → Bool), (∀ r s, p (ApiCall.createRef r s) = false) →
        (branchStep env inputs).1.filter p = [] := by
      intro p hp
      rcases branchStep_cases env inputs with ⟨_, hb1⟩ | ⟨_, hb1⟩ <;> rw [hb1] <;>
        simp [hp]
    rcases cvc_cases env _ _ _ _ _ _ _ hcvc with
      ⟨e', _, _, _, hres⟩ | ⟨raw, bc, hls, hb, hrese, hcalls, _⟩ |
      ⟨raw, bc, e', hls, hb, htree, hcalls, _, hres⟩ |
      ⟨raw, bc, tS, e', hls, hb, htree, hcm, hcalls, _, hres⟩ |
      ⟨raw, bc, tS, nS, hls, hb, htree, hcm, hcalls, hfin, hres⟩
    · rw [hres] at hok
      simp at hok
    · obtain ⟨e', hrese⟩ := hrese
      rw [hrese] at hok
      simp at hok
    · rw [hres] at hok
      simp at hok
    · rw [hres] at hok
      simp at hok
    · have hbcf : ∀ (p : ApiCall → Bool), (∀ cnt, p (ApiCall.createBlob cnt) = false) →
          bc.filter p = [] := by
        intro p hp
        refine List.filter_eq_nil_iff.mpr ?_
        intro c hc
        obtain ⟨cnt, rfl⟩ := createGithubBlobs_calls_blob env _ bc _ hb c hc
        simp [hp]
      subst hfin
      refine ⟨tS, ?_, ?_, ?_⟩
      · rw [hcalls, List.filter_append, List.filter_append,
          hbf isCommitCall (fun r s => rfl), hbcf isCommitCall (fun cnt => rfl)]
        rfl
      · exact hcm
      · rw [hcalls, List.filter_append, List.filter_append,
          hbf isUpdateRefCall (fun r s => rfl), hbcf isUpdateRefCall (fun cnt => rfl)]
        rfl

/-! ### C5: clean working tree is a successful no-op -/

/-- C5: when the working tree is clean the run returns successfully before
any remote API call is issued: the trace is empty. -/
theorem c5_clean_tree_noop (env : Env) (inputs : Inputs)
    (h : env.gitIsClean = true) :
    (run env inputs).calls = [] ∧ (run env inputs).result = .ok () := by
  simp [run, h]

/-- C5 witness: the demo environment with a clean tree. -/
theorem c5_clean_tree_noop_witness :
    demoEnvClean.gitIsClean = true
    ∧ (run demoEnvClean demoInputs).calls = []
    ∧ (run demoEnvClean demoInputs).result = .ok () :=
  ⟨rfl, (c5_clean_tree_noop demoEnvClean demoInputs rfl).1,
    (c5_clean_tree_noop demoEnvClean demoInputs rfl).2⟩

/-! ### C6: idempotent branch creation -/

/-- C6 amended: `createRemoteBranch` issues exactly one `createRef`; an
"already exists" rejection is swallowed (so a second call for the same
branch/base succeeds), a rejection with an `Error` instance carrying any
other message propagates unchanged, but a rejection with a non-`Error`
thrown value is also swallowed rather than propagated. -/
theorem c6_idempotent_branch_creation (env : Env) (branch sha : String) :
    ((createRemoteBranch env branch sha).1 =
      [ApiCall.createRef ("refs/heads/" ++ branch) sha])
    ∧ (env.createRefApi ("refs/heads/" ++ branch) sha = .ok () →
        (createRemoteBranch env branch sha).2 = .ok ())
    ∧ (∀ e, env.createRefApi ("refs/heads/" ++ branch) sha = .error e →
        (e.message = "Reference already exists" →
          (createRemoteBranch env branch sha).2 = .ok ())
        ∧ (e.isError = true → ¬e.message = "Reference already exists" →
            (createRemoteBranch env branch sha).2 = .error e)
        ∧ (e.isError = false → (createRemoteBranch env branch sha).2 = .ok ())) := by
  refine ⟨rfl, ?_, ?_⟩
  · intro h
    simp [createRemoteBranch, h]
  · intro e h
    refine ⟨?_, ?_, ?_⟩
    · intro hmsg
      simp [createRemoteBranch, h, hmsg]
    · intro hie hne
      simp [createRemoteBranch, h, hie, hne]
    · intro hie
      simp [createRemoteBranch, h, hie]

/-- C6 counterexample: a rejection with a non-`Error` value and a message
other than "Reference already exists" does not propagate — the claim's
"any other failure propagates unchanged" fails on it. -/
theorem c6_counterexample :
    demoEnvRefNonError.createRefApi "refs/heads/feature" "tip0" = .error ⟨false, "boom"⟩
    ∧ ¬(JsError.mk false "boom").message = "Reference already exists"
    ∧ (createRemoteBranch demoEnvRefNonError "feature" "tip0").2 = .ok () :=
  ⟨rfl, by decide, rfl⟩

/-- C6 witness: the "already exists" rejection is swallowed. -/
theorem c6_idempotent_branch_creation_witness :
    demoEnvRefAlreadyExists.createRefApi "refs/heads/feature" "tip0" =
      .error ⟨true, "Reference already exists"⟩
    ∧ (createRemoteBranch demoEnvRefAlreadyExists "feature" "tip0").2 = .ok () :=
  ⟨rfl,
    ((c6_idempotent_branch_creation demoEnvRefAlreadyExists "feature" "tip0").2.2
      ⟨true, "Reference already exists"⟩ rfl).1 rfl⟩

/-! ### C7: when the Branch Ensurer runs -/

/-- C7 counterexample: in a run with a clean working tree whose requested
branch differs from the checked-out one, no branch creation is invoked at
all, although the claim ("for every run, ... when, and only when, the
resolved branch differs") requires one. -/
theorem c7_counterexample :
    ¬resolvedBranch demoEnvClean demoInputsFeature = demoEnvClean.gitBranch
    ∧ (run demoEnvClean demoInputsFeature).calls = []
    ∧ (run demoEnvClean demoInputsFeature).result = .ok () :=
  ⟨by decide, rfl, rfl⟩

/-- C7 amended: in every run that passes the clean-tree check, branch
creation is invoked, before any other remote call, exactly when the
resolved target branch differs from the checked-out branch; when they are
equal no `createRef` is ever issued. -/
theorem c7_branch_ensurer_iff (env : Env) (inputs : Inputs)
    (hclean : env.gitIsClean = false) :
    (¬resolvedBranch env inputs = env.gitBranch →
      ∃ rest, (run env inputs).calls =
        ApiCall.createRef ("refs/heads/" ++ resolvedBranch env inputs) env.gitHeadSha :: rest
        ∧ ∀ r s, ¬ApiCall.createRef r s ∈ rest)
    ∧ (resolvedBranch env inputs = env.gitBranch →
        ∀ r s, ¬ApiCall.createRef r s ∈ (run env inputs).calls) := by
  rcases run_cases env inputs hclean with
    ⟨e, hbs, hr⟩ | ⟨e, hbs, hlcr, hr⟩ |
    ⟨rawCommit, cvcCalls, finalSha, cres, hbs, hlcr, hcvc, hr⟩ <;>
    rw [hr] <;> dsimp only <;>
    constructor
  · intro hne
    rcases branchStep_cases env inputs with ⟨_, hb1⟩ | ⟨heq, _⟩
    · exact ⟨[], by rw [hb1], by simp⟩
    · exact absurd heq hne
  · intro heq r s hm
    rcases branchStep_cases env inputs with ⟨hne, _⟩ | ⟨_, hb1⟩
    · exact absurd heq hne
    · rw [hb1] at hm
      simp at hm
  · intro hne
    rcases branchStep_cases env inputs with ⟨_, hb1⟩ | ⟨heq, _⟩
    · exact ⟨[], by rw [hb1], by simp⟩
    · exact absurd heq hne
  · intro heq r s hm
    rcases branchStep_cases env inputs with ⟨hne, _⟩ | ⟨_, hb1⟩
    · exact absurd heq hne
    · rw [hb1] at hm
      simp at hm
  · intro hne
    rcases branchStep_cases env inputs with ⟨_, hb1⟩ | ⟨heq, _⟩
    · refine ⟨cvcCalls, by rw [hb1]; rfl, ?_⟩
      exact fun r s => cvc_no_createRef env _ _ _ _ cvcCalls finalSha cres hcvc r s
    · exact absurd heq hne
  · intro heq r s hm
    rcases branchStep_cases env inputs with ⟨hne, _⟩ | ⟨_, hb1⟩
    · exact absurd heq hne
    · rw [hb1] at hm
      simp at hm
      exact cvc_no_createRef env _ _ _ _ cvcCalls finalSha cres hcvc r s hm

/-! ### Witnesses for the run-level theorems -/

/-- C2 witness: a run whose upload-task set is empty still submits the full
(one-entry) target snapshot to tree creation. -/
theorem c2_full_target_tree_submitted_witness :
    (∀ cnt, ¬ApiCall.createBlob cnt ∈ (run demoEnvNoDiff demoInputs).calls)
    ∧ ApiCall.createTree (parseLsTree "100644 blob a1\tx.txt") ∈
        (run demoEnvNoDiff demoInputs).calls
    ∧ ∃ rawCommit raw, demoEnvNoDiff.localCommitRaw = .ok rawCommit
        ∧ demoEnvNoDiff.lsTree (stripHeadToken rawCommit) = .ok raw
        ∧ parseLsTree "100644 blob a1\tx.txt" = parseLsTree raw :=
  ⟨by intro cnt hm; rw [show (run demoEnvNoDiff demoInputs).calls =
      [ApiCall.createTree (parseLsTree "100644 blob a1\tx.txt"),
        ApiCall.createCommit "chore: sync" ["tip0"] "tree1",
        ApiCall.updateRef "heads/main" "commit1" true] from rfl] at hm; simp at hm,
    by decide,
    c2_full_target_tree_submitted demoEnvNoDiff demoInputs _ (by decide)⟩

/-- C3 witness: a run with a rejected blob upload aborts with an error and
issues no tree- or commit-creation call. -/
theorem c3_upload_failure_no_partial_commit_witness :
    ApiCall.createBlob "WQ==" ∈ (run demoEnvBlobFail demoInputs).calls
    ∧ demoEnvBlobFail.createBlobApi "WQ==" = .error ⟨true, "quota exceeded"⟩
    ∧ ((∃ e', (run demoEnvBlobFail demoInputs).result = .error e')
      ∧ (∀ ent, ¬ApiCall.createTree ent ∈ (run demoEnvBlobFail demoInputs).calls)
      ∧ (∀ m ps t, ¬ApiCall.createCommit m ps t ∈ (run demoEnvBlobFail demoInputs).calls)) :=
  ⟨by decide, rfl,
    (c3_upload_failure_no_partial_commit demoEnvBlobFail demoInputs).1
      "WQ==" ⟨true, "quota exceeded"⟩ (by decide) rfl⟩

/-- C4 witness: the happy-path demo run. -/
theorem c4_commit_parent_linkage_witness :
    demoEnv.gitIsClean = false
    ∧ (run demoEnv demoInputs).result = .ok ()
    ∧ ∃ treeSha,
        ((run demoEnv demoInputs).calls.filter isCommitCall) =
          [ApiCall.createCommit demoInputs.commitMessage [demoEnv.gitHeadSha] treeSha]
        ∧ demoEnv.createCommitApi demoInputs.commitMessage [demoEnv.gitHeadSha] treeSha =
            .ok ((run demoEnv demoInputs).lastCommitSha)
        ∧ ((run demoEnv demoInputs).calls.filter isUpdateRefCall) =
            [ApiCall.updateRef ("heads/" ++ resolvedBranch demoEnv demoInputs)
              ((run demoEnv demoInputs).lastCommitSha) true] :=
  ⟨rfl, rfl, c4_commit_parent_linkage demoEnv demoInputs rfl rfl⟩

/-- C7 witness for the amended claim: a dirty run with a differing branch
issues the `createRef` first and never again. -/
theorem c7_branch_ensurer_iff_witness :
    demoEnv.gitIsClean = false
    ∧ ¬resolvedBranch demoEnv demoInputsFeature = demoEnv.gitBranch
    ∧ ∃ rest, (run demoEnv demoInputsFeature).calls =
        ApiCall.createRef ("refs/heads/" ++ resolvedBranch demoEnv demoInputsFeature)
          demoEnv.gitHeadSha :: rest
        ∧ ∀ r s, ¬ApiCall.createRef r s ∈ rest :=
  ⟨rfl, by decide, (c7_branch_ensurer_iff demoEnv demoInputsFeature rfl).1 (by decide)⟩

end AVC
